import Mathlib

/-!
Verification of the dxf2elmt entity-translation engine.

Shallow embedding conventions:
* Rust `String`/`&str` values are embedded as `List Nat`, the list of their
  UTF-8 bytes (each in `0..256`).  The scanner in `normalize_mtext` works on
  bytes exactly as the Rust source does, and `out.push(b as char)` is embedded
  by `pushByte`, which re-encodes bytes `≥ 0x80` as the two UTF-8 bytes of the
  corresponding `char`, matching Rust's `u8 as char` followed by `String::push`.
* Rust `f64` arithmetic is embedded as exact `ℚ` arithmetic.
* The random `Uuid::new_v4()` is embedded by passing the freshly drawn value
  to the builder as an explicit argument.
-/

namespace Dxf2Elmt

/-! ## Source-side entity stream and tally (src/lib.rs, `convert_dxf_file`) -/

/-- The entity kinds distinguished by the `match e.specific` in
`convert_dxf_file` (src/lib.rs).  The catch-all `_` arm of the match is
embedded as the single constructor `Other`. -/
inductive EntityType where
  | Circle
  | Line
  | Arc
  | Spline
  | Text
  | Ellipse
  | Polyline
  | LwPolyline
  | Solid
  | Insert
  | Other
deriving DecidableEq, Repr

/-- The per-kind source tally of `ConversionStats` (src/lib.rs).  The
`elapsed_ms` wall-clock field is not part of the embedding. -/
structure ConversionStats where
  circles : Nat
  lines : Nat
  arcs : Nat
  splines : Nat
  texts : Nat
  ellipses : Nat
  polylines : Nat
  lwpolylines : Nat
  solids : Nat
  blocks : Nat
  unsupported : Nat
deriving DecidableEq, Repr

def ConversionStats.zero : ConversionStats :=
  ⟨0, 0, 0, 0, 0, 0, 0, 0, 0, 0, 0⟩

/-- One step of the counting loop in `convert_dxf_file` (src/lib.rs:93-105):
each entity increments exactly one counter. -/
def countEntity (s : ConversionStats) (e : EntityType) : ConversionStats :=
  match e with
  | .Circle => { s with circles := s.circles + 1 }
  | .Line => { s with lines := s.lines + 1 }
  | .Arc => { s with arcs := s.arcs + 1 }
  | .Spline => { s with splines := s.splines + 1 }
  | .Text => { s with texts := s.texts + 1 }
  | .Ellipse => { s with ellipses := s.ellipses + 1 }
  | .Polyline => { s with polylines := s.polylines + 1 }
  | .LwPolyline => { s with lwpolylines := s.lwpolylines + 1 }
  | .Solid => { s with solids := s.solids + 1 }
  | .Insert => { s with blocks := s.blocks + 1 }
  | .Other => { s with unsupported := s.unsupported + 1 }

/-- The `drawing.entities().for_each(...)` counting pass of
`convert_dxf_file` over the whole entity stream. -/
def countEntities (es : List EntityType) : ConversionStats :=
  es.foldl countEntity ConversionStats.zero

/-- The source-side total, as summed by the `Total:` line of the log
(src/lib.rs:206-209). -/
def ConversionStats.total (s : ConversionStats) : Nat :=
  s.circles + s.lines + s.arcs + s.splines + s.texts + s.ellipses +
    s.polylines + s.lwpolylines + s.solids + s.blocks + s.unsupported

/-! ## Emitted Object Tree and the recursive statistics walker -/

/-- The emitted-object tagged union `qelmt::Objects`.  Its declaration lives
in the `qelmt` module root, which is not among the provided sources; the
variant list is taken from the exhaustive `match obj` in
`count_objects_recursive` (src/lib.rs:170-181) and §3 of the specification
(`Arc | Ellipse | Polygon | Line | Text | DynamicText | Group(children)`).
The geometric payloads are irrelevant to every claim and are omitted;
`Group` keeps its ordered children. -/
inductive Objects where
  | Arc
  | Ellipse
  | Polygon
  | DynamicText
  | Text
  | Line
  | Group (children : List Objects)
deriving Repr

/-- The seven emitted-kind counters of `write_text_log` (src/lib.rs:158-164). -/
structure ElmtCounts where
  circles : Nat
  lines : Nat
  arcs : Nat
  polygons : Nat
  dynamic_texts : Nat
  texts : Nat
  groups : Nat
deriving DecidableEq, Repr

def ElmtCounts.zero : ElmtCounts := ⟨0, 0, 0, 0, 0, 0, 0⟩

/-- The emitted-side total, as summed by the `Total:` line for the ELMT tally
(src/lib.rs:220-222). -/
def ElmtCounts.total (c : ElmtCounts) : Nat :=
  c.circles + c.lines + c.arcs + c.polygons + c.dynamic_texts + c.texts + c.groups

mutual

/-- `count_objects_recursive` (src/lib.rs:166-183): one object's contribution.
A `Group` increments the group counter and then contributes its children,
flattened into the same running totals.  Note the Rust comment: circles are
emitted as ellipses, so `Objects::Ellipse` increments the `circles` counter. -/
def countObject (c : ElmtCounts) : Objects → ElmtCounts
  | .Arc => { c with arcs := c.arcs + 1 }
  | .Ellipse => { c with circles := c.circles + 1 }
  | .Polygon => { c with polygons := c.polygons + 1 }
  | .DynamicText => { c with dynamic_texts := c.dynamic_texts + 1 }
  | .Text => { c with texts := c.texts + 1 }
  | .Line => { c with lines := c.lines + 1 }
  | .Group children => countObjectsRecursive { c with groups := c.groups + 1 } children

/-- The `for obj in objects` loop of `count_objects_recursive`. -/
def countObjectsRecursive (c : ElmtCounts) : List Objects → ElmtCounts
  | [] => c
  | o :: rest => countObjectsRecursive (countObject c o) rest

end

mutual

/-- Number of nodes of one object, the `Group` node itself included. -/
def Objects.nodeCount : Objects → Nat
  | .Group children => 1 + Objects.listNodeCount children
  | _ => 1

/-- Total number of nodes of an object forest (groups counted, children
flattened). -/
def Objects.listNodeCount : List Objects → Nat
  | [] => 0
  | o :: rest => Objects.nodeCount o + Objects.listNodeCount rest

end

/-! ## The Escape Normalizer (src/src/qelmt/dynamictext.rs, `normalize_mtext`)

The Rust scanner walks the raw string's UTF-8 bytes; we embed the string as
`List Nat` (its bytes) and emulate the scanner byte for byte. -/

/-- Embedding of Rust `out.push(bytes[i] as char)` for a byte `b < 256`: a
byte below `0x80` is pushed as itself, a larger one re-encodes as the two
UTF-8 bytes of the code point `U+0080 ..= U+00FF` it denotes, exactly as
Rust's `u8 as char` followed by `String::push` does. -/
def pushByte (b : Nat) : List Nat :=
  if b < 128 then [b] else [192 + b / 64, 128 + b % 64]

/-- `pushByte` mapped over a span and flattened: the embedding of the restore
loop `for j in start..i { out.push(bytes[j] as char) }`. -/
def pushBytes (l : List Nat) : List Nat :=
  (l.map pushByte).flatten

/-- Rust `char::is_alphabetic` restricted to code points `0 ..= 0xFF`: the
ASCII letters plus the Latin-1 letters `ª µ º À-Ö Ø-ö ø-ÿ`.  This embeds the
`(bytes[i + 1] as char).is_alphabetic()` test of `normalize_mtext`. -/
def isLatin1Alpha (b : Nat) : Bool :=
  (65 ≤ b && b ≤ 90) || (97 ≤ b && b ≤ 122) || b == 170 || b == 181 ||
    b == 186 || (192 ≤ b && b ≤ 214) || (216 ≤ b && b ≤ 246) ||
    (248 ≤ b && b ≤ 255)

/-- The bytes the code-consuming inner loop of `normalize_mtext` accepts:
`b.is_ascii_alphanumeric() || b == b'-' || b == b'_' || b == b'|' ||
b == b' ' || b == b'.'` (src/src/qelmt/dynamictext.rs:90). -/
def isCodeByte (b : Nat) : Bool :=
  (48 ≤ b && b ≤ 57) || (65 ≤ b && b ≤ 90) || (97 ≤ b && b ≤ 122) ||
    b == 45 || b == 95 || b == 124 || b == 32 || b == 46

/-- The inner code-consuming loop of `normalize_mtext`
(src/src/qelmt/dynamictext.rs:83-99).  Returns the span consumed after the
candidate code's letter, the remaining input, and whether a terminating `;`
was found.  On `;` the terminator is consumed and dropped; on a disqualifying
byte the scan stops in front of it; at end of input it just stops. -/
def scanCode : List Nat → List Nat × List Nat × Bool
  | [] => ([], [], false)
  | b :: rest =>
    if b == 59 then ([], rest, true)
    else if isCodeByte b then
      let r := scanCode rest
      (b :: r.1, r.2.1, r.2.2)
    else ([], b :: rest, false)

/-- The outer scanning loop of `normalize_mtext`
(src/src/qelmt/dynamictext.rs:36-110), with explicit fuel so that the
definition is structural (kernel-computable).  `normLoop` below instantiates
the fuel with the input length, which `normLoopF_congr` shows is enough.
Cases, in the source's order: braces are dropped; a non-backslash byte is
pushed; `\\`, `\P`, `\~` push `\`, newline, space; a backslash before an
alphabetic byte starts a candidate code handed to `scanCode` — a terminated
code is dropped entirely, a code stopped by a disqualifying byte is restored
verbatim and scanning resumes at that byte, and a code running to the end of
the input is dropped with nothing restored; a remaining lone backslash is
pushed and scanning resumes at the next byte. -/
def normLoopF : Nat → List Nat → List Nat
  | 0, _ => []
  | _ + 1, [] => []
  | f + 1, b :: rest =>
    if b == 123 || b == 125 then normLoopF f rest
    else if b != 92 then pushByte b ++ normLoopF f rest
    else
      match rest with
      | [] => pushByte 92
      | b2 :: rest2 =>
        if b2 == 92 then pushByte 92 ++ normLoopF f rest2
        else if b2 == 80 then pushByte 10 ++ normLoopF f rest2
        else if b2 == 126 then pushByte 32 ++ normLoopF f rest2
        else if isLatin1Alpha b2 then
          let s := scanCode rest2
          if s.2.2 then normLoopF f s.2.1
          else
            match s.2.1 with
            | [] => []
            | d :: r2 => pushBytes (92 :: b2 :: s.1) ++ normLoopF f (d :: r2)
        else pushByte 92 ++ normLoopF f rest

/-- The outer scanning loop, fuelled with the input length. -/
def normLoop (l : List Nat) : List Nat :=
  normLoopF l.length l

/-- Embedding of `input.find(';')` followed by taking the text after it:
returns the part of the input after the first `;`, or `none` when no `;`
occurs (src/src/qelmt/dynamictext.rs:22-28). -/
def restAfterSemi : List Nat → Option (List Nat)
  | [] => none
  | b :: rest => if b == 59 then some rest else restAfterSemi rest

/-- `normalize_mtext` (src/src/qelmt/dynamictext.rs:20-113): everything up to
and including the first `;` is discarded (the whole input is kept when there
is no `;`), then the remainder is scanned by the outer loop. -/
def normalize_mtext (l : List Nat) : List Nat :=
  normLoop ((restAfterSemi l).getD l)

/-- A byte that is none of the scanner's special bytes `\\ { } ;`
(an "escape marker" in the sense of spec §8's idempotence property). -/
def noMarkerByte (b : Nat) : Bool :=
  !(b == 92 || b == 123 || b == 125 || b == 59)

/-- A byte that is neither special to the scanner nor re-encoded by
`pushByte`: the scanner copies such bytes unchanged. -/
def plainAsciiByte (b : Nat) : Bool :=
  noMarkerByte b && b < 128

/-! ## The Format Extractor (src/src/qelmt/dynamictext.rs, `extract_mtext_format`) -/

/-- The scan for the first two-byte marker `\f`
(src/src/qelmt/dynamictext.rs:134-137).  Returns the input part after the
marker.  The Rust loop condition `i + 2 < bytes.len()` demands at least one
byte after the marker, so a `\f` that ends the input is not found (its block
would be empty, which yields the all-default result either way). -/
def findFontTail : List Nat → Option (List Nat)
  | a :: b :: c :: rest =>
    if a == 92 && b == 102 then some (c :: rest)
    else findFontTail (b :: c :: rest)
  | _ => none

/-- Rust `str::split('|')` on the byte embedding: the pieces between `|`
bytes, empty pieces included. -/
def splitOnPipe : List Nat → List (List Nat)
  | [] => [[]]
  | b :: rest =>
    if b == 124 then [] :: splitOnPipe rest
    else
      match splitOnPipe rest with
      | [] => [[b]]
      | p :: ps => (b :: p) :: ps

/-- ASCII whitespace byte, as stripped by Rust `str::trim`.  (The few
non-ASCII whitespace code points `char::is_whitespace` also strips are
multi-byte in UTF-8 and are not modelled.) -/
def isAsciiWs (b : Nat) : Bool :=
  b == 32 || (9 ≤ b && b ≤ 13)

/-- Rust `str::trim` on the byte embedding (ASCII whitespace). -/
def trimAscii (l : List Nat) : List Nat :=
  ((l.dropWhile isAsciiWs).reverse.dropWhile isAsciiWs).reverse

/-- A `{` or `}` byte, for `trim_matches(['{', '}'])`. -/
def isBraceByte (b : Nat) : Bool :=
  b == 123 || b == 125

/-- Rust `str::trim_matches(['{', '}'])` on the byte embedding: strips all
leading and trailing brace bytes. -/
def trimBraces (l : List Nat) : List Nat :=
  ((l.dropWhile isBraceByte).reverse.dropWhile isBraceByte).reverse

def asciiDigit (b : Nat) : Bool :=
  48 ≤ b && b ≤ 57

def digitsVal (l : List Nat) : Nat :=
  l.foldl (fun acc b => acc * 10 + (b - 48)) 0

/-- A non-empty all-digit byte string, parsed to its value. -/
def parseDigits (l : List Nat) : Option Nat :=
  if l ≠ [] ∧ l.all asciiDigit = true then some (digitsVal l) else none

/-- Rust `str::parse::<i32>`: optional sign, one or more digits, nothing
else; out-of-range values are a parse error. -/
def parse_i32 (l : List Nat) : Option Int :=
  match l with
  | 43 :: r =>
    (parseDigits r).bind fun n =>
      if n ≤ 2147483647 then some (n : Int) else none
  | 45 :: r =>
    (parseDigits r).bind fun n =>
      if n ≤ 2147483648 then some (-(n : Int)) else none
  | r =>
    (parseDigits r).bind fun n =>
      if n ≤ 2147483647 then some (n : Int) else none

/-- The optional exponent suffix of a float literal: empty, or `e`/`E`
followed by an optionally signed non-empty digit run. -/
def parseExpPart (l : List Nat) : Option Int :=
  match l with
  | [] => some 0
  | 101 :: r => parseExpDigits r
  | 69 :: r => parseExpDigits r
  | _ => none
where
  parseExpDigits : List Nat → Option Int
  | 43 :: d => (parseDigits d).map (fun n => (n : Int))
  | 45 :: d => (parseDigits d).map (fun n => -(n : Int))
  | d => (parseDigits d).map (fun n => (n : Int))

/-- `10^n` as a rational, via `Nat` exponentiation (kernel-friendly). -/
def pow10 (n : Nat) : ℚ := ((10 ^ n : ℕ) : ℚ)

/-- `q * 10^e` for an integer exponent, via multiplication or division by
the `Nat` power. -/
def applyExp (q : ℚ) : Int → ℚ
  | .ofNat n => q * pow10 n
  | .negSucc n => q / pow10 (n + 1)

/-- The unsigned part of Rust `str::parse::<f64>` for finite decimal
literals: `digits [. digits*] [exp]` or `. digits+ [exp]`. -/
def parse_f64_body (l : List Nat) : Option ℚ :=
  let ip := l.takeWhile asciiDigit
  let r1 := l.dropWhile asciiDigit
  match r1 with
  | 46 :: r2 =>
    let fp := r2.takeWhile asciiDigit
    let r3 := r2.dropWhile asciiDigit
    if ip = [] ∧ fp = [] then none
    else
      (parseExpPart r3).map fun e =>
        applyExp ((digitsVal ip : ℚ) + (digitsVal fp : ℚ) / pow10 fp.length) e
  | other =>
    if ip = [] then none
    else (parseExpPart other).map fun e => applyExp (digitsVal ip : ℚ) e

/-- Rust `str::parse::<f64>` restricted to finite decimal literals, with the
exact decimal value kept in `ℚ`.  (The nearest-double rounding of the real
parser and the non-finite literals `inf`/`NaN` lie outside the rational
embedding; no format block in scope uses them.) -/
def parse_f64 (l : List Nat) : Option ℚ :=
  match l with
  | 43 :: r => parse_f64_body r
  | 45 :: r => (parse_f64_body r).map (fun q => -q)
  | r => parse_f64_body r

/-- `MTextFormatInfo` (src/src/qelmt/dynamictext.rs:116-123) with its
`Default` values. -/
structure MTextFormatInfo where
  family : Option (List Nat) := none
  bold : Bool := false
  italic : Bool := false
  point_size : Option ℚ := none
  color_index : Option Int := none
deriving DecidableEq, Repr

/-- One iteration of the `for part in parts.iter().skip(1)` field loop of
`extract_mtext_format` (src/src/qelmt/dynamictext.rs:155-185): the part is
trimmed, skipped when empty, and classified by its `b`/`i`/`c`/`p` prefix
when at least one byte follows; a field whose numeric payload fails to parse
is ignored. -/
def applyFormatField (info : MTextFormatInfo) (rawPart : List Nat) :
    MTextFormatInfo :=
  match trimAscii rawPart with
  | [] => info
  | p0 :: ptail =>
    if p0 = 98 ∧ ptail ≠ [] then
      match parse_i32 ptail with
      | some v => { info with bold := v != 0 }
      | none => info
    else if p0 = 105 ∧ ptail ≠ [] then
      match parse_i32 ptail with
      | some v => { info with italic := v != 0 }
      | none => info
    else if p0 = 99 ∧ ptail ≠ [] then
      match parse_i32 ptail with
      | some v => { info with color_index := some v }
      | none => info
    else if p0 = 112 ∧ ptail ≠ [] then
      match parse_f64 ptail with
      | some v => { info with point_size := some v }
      | none => info
    else info

/-- `extract_mtext_format` (src/src/qelmt/dynamictext.rs:129-192): find the
first `\f` marker, capture up to the next `;` as a `|`-delimited block whose
first field is the font family (trimmed of whitespace then braces, empty
meaning none) and whose later fields are classified by `applyFormatField`;
only this first block is consulted (the Rust loop `break`s after it). -/
def extract_mtext_format (l : List Nat) : MTextFormatInfo :=
  match findFontTail l with
  | none => {}
  | some t =>
    let block := t.takeWhile (fun b => b != 59)
    let parts := splitOnPipe block
    let fam := trimBraces (trimAscii (parts.headD []))
    let info0 : MTextFormatInfo :=
      { family := if fam = [] then none else some fam }
    parts.tail.foldl applyFormatField info0

/-! ## The Text Builder and `DynamicText`
(src/src/qelmt/dynamictext.rs, `DTextBuilder`, `DynamicText`) -/

/-- `HAlignment` (variants as matched in the emitter,
src/src/qelmt/dynamictext.rs:251-255; declared in the `qelmt` module root,
which is not among the provided sources). -/
inductive HAlignment where
  | Left
  | Center
  | Right
deriving DecidableEq, Repr

/-- Modelled from the spec: `VAlignment` mirrors the CAD vertical
justification set.  Its declaration lives in the `qelmt` module root, which
is not among the provided sources; no claim depends on the variant list. -/
inductive VAlignment where
  | Top
  | Center
  | Bottom
deriving DecidableEq, Repr

inductive FontStyle where
  | Normal
  | Italic
deriving DecidableEq, Repr

/-- Modelled from the spec: the built-in default font family (§4.3 "Family
defaults to a built-in default").  The concrete name lives in the `qelmt`
module root, which is not among the provided sources; no claim depends on
its value. -/
def defaultFontFamily : List Nat := []

/-- `FontInfo` (declared in the `qelmt` module root, not among the provided
sources): family, point size, weight (50 normal / 75 bold), style, per spec
§3. -/
structure FontInfo where
  family : List Nat
  point_size : ℚ
  weight : Nat
  style : FontStyle
deriving DecidableEq, Repr

/-- Modelled from the spec: `FontInfo::default()` as used by
`FontInfo { point_size, ..Default::default() }` in the builder — default
family, normal weight and style.  The default point size is irrelevant (it
is always overridden). -/
def FontInfo.default0 : FontInfo :=
  { family := defaultFontFamily, point_size := 0, weight := 50,
    style := .Normal }

/-- The `hex_color::HexColor` RGBA struct (external crate). -/
structure HexColor where
  r : Nat
  g : Nat
  b : Nat
  a : Nat
deriving DecidableEq, Repr

def HexColor.BLACK : HexColor := ⟨0, 0, 0, 255⟩

/-- `hex_color::HexColor::from_u32` (external crate): the 32-bit value read
as `0xRRGGBBAA`.  No claim depends on this mapping. -/
def HexColor.from_u32 (n : Nat) : HexColor :=
  ⟨n / 2 ^ 24 % 256, n / 2 ^ 16 % 256, n / 2 ^ 8 % 256, n % 256⟩

structure Point where
  x : ℚ
  y : ℚ
  z : ℚ
deriving DecidableEq, Repr

/-- The fields of `dxf::entities::Text` (external crate) read by the
builder.  The `HAlignment::from`/`VAlignment::from` justification
conversions live in the `qelmt` module root (not among the provided
sources) and are treated as already applied. -/
structure TextEnt where
  location : Point
  rotation : ℚ
  text_style_name : List Nat
  text_height : ℚ
  value : List Nat
  horizontal_text_justification : HAlignment
  vertical_text_justification : VAlignment

/-- The fields of `dxf::entities::MText` (external crate) read by the
builder; the attachment-point conversions are treated as already applied. -/
structure MTextEnt where
  insertion_point : Point
  rotation_angle : ℚ
  text_style_name : List Nat
  initial_text_height : ℚ
  text : List Nat
  extended_text : List (List Nat)
  attachment_h : HAlignment
  attachment_v : VAlignment
  reference_rectangle_width : ℚ

/-- The fields of `dxf::entities::AttributeDefinition` (external crate)
read by the builder. -/
structure AttribEnt where
  location : Point
  rotation : ℚ
  text_style_name : List Nat
  text_height : ℚ
  value : List Nat
  horizontal_text_justification : HAlignment
  vertical_text_justification : VAlignment

/-- `TextEntity` (declared in the `qelmt` module root, not among the
provided sources): the three text-bearing source variants the builder
unifies, as matched in `DTextBuilder::build`. -/
inductive TextEntity where
  | Text (t : TextEnt)
  | MText (m : MTextEnt)
  | Attrib (a : AttribEnt)

/-- `DynamicText` (src/src/qelmt/dynamictext.rs:194-213). -/
structure DynamicText where
  text : List Nat
  info_name : Option (List Nat)
  x : ℚ
  y : ℚ
  z : ℚ
  rotation : ℚ
  uuid : Nat
  h_alignment : HAlignment
  font : FontInfo
  text_from : List Nat
  v_alignment : VAlignment
  frame : Bool
  text_width : Int
  keep_visual_rotation : Bool
  color : HexColor
  reference_rectangle_width : ℚ
  original_text_height : ℚ
deriving DecidableEq, Repr

/-- `DTextBuilder` (src/src/qelmt/dynamictext.rs:320-323). -/
structure DTextBuilder where
  text : TextEntity
  color : Option HexColor

def DTextBuilder.from_text (t : TextEnt) : DTextBuilder := ⟨.Text t, none⟩

def DTextBuilder.from_mtext (m : MTextEnt) : DTextBuilder := ⟨.MText m, none⟩

def DTextBuilder.from_attrib (a : AttribEnt) : DTextBuilder := ⟨.Attrib a, none⟩

/-- The `color` builder method (src/src/qelmt/dynamictext.rs:347-352). -/
def DTextBuilder.withColor (b : DTextBuilder) (c : HexColor) : DTextBuilder :=
  { b with color := some c }

/-- Rust `f64::round` (round half away from zero) on the rational
embedding, composed with the `as i64` cast.  (The saturating behaviour of
the cast at `±2^63` is outside the rational embedding.) -/
def rustRound (q : ℚ) : ℤ :=
  if 0 ≤ q then ⌊q + 1 / 2⌋ else -⌊-q + 1 / 2⌋

/-- The source rotation of the entity held by a builder (`txt.rotation`,
`mtxt.rotation_angle` or `attrib.rotation` in the destructuring match of
`DTextBuilder::build`). -/
def DTextBuilder.sourceRotation (b : DTextBuilder) : ℚ :=
  match b.text with
  | .Text t => t.rotation
  | .MText m => m.rotation_angle
  | .Attrib a => a.rotation

/-- The bytes of `"STANDARD"`. -/
def standardStyleName : List Nat := [83, 84, 65, 78, 68, 65, 82, 68]

/-- The bytes of `"UserText"`. -/
def userTextBytes : List Nat := [85, 115, 101, 114, 84, 101, 120, 116]

/-- `DTextBuilder::build` (src/src/qelmt/dynamictext.rs:357-548).  The
random `Uuid::new_v4()` is passed in as `uuid`.  Notable source behaviour
embedded one-to-one: the y-coordinate is negated for all three variants;
`Text` and `MText` values run through `normalize_mtext` while the `Attrib`
value is stored as-is (`attrib.value.clone()`); `MText` joins
`extended_text` before `text`; the rotation is stored as
`rotation - 180` when `rotation.abs().round() as i64 % 360 != 0` and `0`
otherwise; the `style_name == "STANDARD"` conditional has two identical
arms in the source and is kept; a format color index strictly between 0 and
256 is converted with `HexColor::from_u32`, anything else falls back to the
builder color or black. -/
def DTextBuilder.build (b : DTextBuilder) (uuid : Nat) : DynamicText :=
  let (x, y, z, rotation, style_name, text_height, value, h_alignment,
      v_alignment, reference_rectangle_width) :=
    match b.text with
    | .Text txt =>
      (txt.location.x, -txt.location.y, txt.location.z, txt.rotation,
        txt.text_style_name, txt.text_height, normalize_mtext txt.value,
        txt.horizontal_text_justification, txt.vertical_text_justification,
        (0 : ℚ))
    | .MText mtxt =>
      (mtxt.insertion_point.x, -mtxt.insertion_point.y,
        mtxt.insertion_point.z, mtxt.rotation_angle, mtxt.text_style_name,
        mtxt.initial_text_height,
        normalize_mtext (mtxt.extended_text.flatten ++ mtxt.text),
        mtxt.attachment_h, mtxt.attachment_v, mtxt.reference_rectangle_width)
    | .Attrib attrib =>
      (attrib.location.x, -attrib.location.y, attrib.location.z,
        attrib.rotation, attrib.text_style_name, attrib.text_height,
        attrib.value, attrib.horizontal_text_justification,
        attrib.vertical_text_justification, (0 : ℚ))
  let format_info :=
    match b.text with
    | .MText mtxt =>
      extract_mtext_format (mtxt.extended_text.flatten ++ mtxt.text)
    | .Text txt => extract_mtext_format txt.value
    | .Attrib _ => {}
  let font_style := if format_info.italic then FontStyle.Italic
    else FontStyle.Normal
  let font_weight := if format_info.bold then 75 else 50
  { x := x
    y := y
    z := z
    rotation := if rustRound |rotation| % 360 ≠ 0 then rotation - 180 else 0
    uuid := uuid
    font :=
      let f :=
        if style_name = standardStyleName then
          { FontInfo.default0 with point_size := text_height }
        else
          { FontInfo.default0 with point_size := text_height }
      let f :=
        match format_info.family with
        | some fam => { f with family := fam }
        | none => f
      { f with style := font_style, weight := font_weight }
    reference_rectangle_width := reference_rectangle_width
    h_alignment := h_alignment
    v_alignment := v_alignment
    text_from := userTextBytes
    frame := false
    text_width := -1
    color :=
      match format_info.color_index with
      | some color_idx =>
        if 0 < color_idx ∧ color_idx < 256 then
          HexColor.from_u32 color_idx.toNat
        else
          b.color.getD HexColor.BLACK
      | none => b.color.getD HexColor.BLACK
    original_text_height := text_height
    text := value
    keep_visual_rotation := false
    info_name := none }

/-- `ScaleEntity::scale` for `DynamicText`
(src/src/qelmt/dynamictext.rs:293-299): the position is scaled by
`(fact_x, fact_y)` and `font.point_size` by `fact_x`; nothing else is
touched. -/
def DynamicText.scale (t : DynamicText) (fact_x fact_y : ℚ) : DynamicText :=
  { t with
    x := t.x * fact_x
    y := t.y * fact_y
    font := { t.font with point_size := t.font.point_size * fact_x } }

/-! ## The XML Emitter for `DynamicText`
(src/src/qelmt/dynamictext.rs, `impl From<&DynamicText> for XMLElement`) -/

/-- The value of one XML attribute.  Numeric values are carried exactly;
the fixed two-decimal rendering (`two_dec`, `qelmt` module root, not among
the provided sources) and the `Display` instances are not modelled. -/
inductive AttrValue where
  | num (q : ℚ)
  | int (i : Int)
  | boolean (b : Bool)
  | str (s : List Nat)
  | font (f : FontInfo)
  | halign (h : HAlignment)
  | valign (v : VAlignment)
  | uuidBraced (u : Nat)
  | colorRgb (c : HexColor)
deriving DecidableEq, Repr

/-- The `dynamic_text` XML node: its attribute list in emission order and
the text content of its single `text` child.  (The generic
`simple_xml_builder::XMLElement` plumbing is an external crate.) -/
structure DynamicTextXml where
  attributes : List (String × AttrValue)
  textChild : List Nat
deriving DecidableEq, Repr

/-- The estimated text width of the emitter
(src/src/qelmt/dynamictext.rs:242-247): the source reference width when it
exceeds 2.0, else `grapheme_count * point_size * 0.75`.  The grapheme
segmentation is the external `unicode_segmentation` crate, passed in as
`gc`. -/
def estTextWidth (gc : List Nat → Nat) (t : DynamicText) : ℚ :=
  if t.reference_rectangle_width > 2 then t.reference_rectangle_width
  else (gc t.text : ℚ) * t.font.point_size * (3 / 4)

/-- The emitted x position (src/src/qelmt/dynamictext.rs:249-256):
`x + 0.5 - point_size/8 - 4.05`, then shifted left by half the estimated
width for `Center` and by the full estimated width for `Right`. -/
def xPosOf (gc : List Nat → Nat) (t : DynamicText) : ℚ :=
  let x_pos := t.x + 1 / 2 - t.font.point_size / 8 - 81 / 20
  match t.h_alignment with
  | .Left => x_pos
  | .Center => x_pos - estTextWidth gc t / 2
  | .Right => x_pos - estTextWidth gc t

/-- The emitted y position (src/src/qelmt/dynamictext.rs:257):
`y + 0.5 - (7/5*point_size + 26/5) + point_size`. -/
def yPosOf (t : DynamicText) : ℚ :=
  t.y + 1 / 2 - (7 / 5 * t.font.point_size + 26 / 5) + t.font.point_size

/-- `From<&DynamicText> for XMLElement`
(src/src/qelmt/dynamictext.rs:215-291): the fixed attribute sequence, the
single `text` child, and the two attributes (`info_name`,
`keep_visual_rotation`) appended only when present / true. -/
def DynamicText.toXml (gc : List Nat → Nat) (t : DynamicText) :
    DynamicTextXml :=
  { attributes :=
      [("x", .num (xPosOf gc t)), ("y", .num (yPosOf t)), ("z", .num t.z),
        ("rotation", .num t.rotation), ("uuid", .uuidBraced t.uuid),
        ("font", .font t.font), ("Halignment", .halign t.h_alignment),
        ("Valignment", .valign t.v_alignment),
        ("text_from", .str t.text_from), ("frame", .boolean t.frame),
        ("text_width", .int t.text_width), ("color", .colorRgb t.color)] ++
      (match t.info_name with
        | some n => [("info_name", AttrValue.str n)]
        | none => []) ++
      (if t.keep_visual_rotation then
        [("keep_visual_rotation", AttrValue.boolean t.keep_visual_rotation)]
      else [])
    textChild := t.text }

/-- A concrete block-attribute entity whose value `"{a}"` (bytes
`123 97 125`) the normalizer would strip to `"a"`. -/
def cexAttrib : AttribEnt :=
  { location := ⟨0, 0, 0⟩, rotation := 0, text_style_name := [],
    text_height := 1, value := [123, 97, 125],
    horizontal_text_justification := .Left,
    vertical_text_justification := .Top }

/-! ## Panic-freedom obligations of the pure text transformations (for C8)

The only partial operations in `normalize_mtext` and
`extract_mtext_format` are Rust's string slicings (`&input[text_start..]`,
`&input[start..i]`, `part[1..]`): every direct byte access in the source is
explicitly bounds-guarded, and slicing panics exactly when an edge fails
`str::is_char_boundary`.  The definitions below record each slice edge the
two functions take, so that panic freedom is the statement that every
recorded edge passes the boundary check. -/

/-- The consequence of UTF-8 validity the boundary checks rely on: a
continuation byte (`0x80..0xBF`) never immediately follows a one-byte
(ASCII) character.  Every Rust `str` (valid UTF-8) satisfies
`List.Chain' utf8Step` on its bytes. -/
def utf8Step (a b : Nat) : Prop :=
  a < 128 → (b < 128 ∨ 192 ≤ b)

instance : DecidableRel utf8Step := fun a b =>
  inferInstanceAs (Decidable (a < 128 → (b < 128 ∨ 192 ≤ b)))

/-- Rust `str::is_char_boundary` on the byte embedding: position 0, the end
of the string, or a byte that is not a continuation byte. -/
def isCharBoundary (l : List Nat) (p : Nat) : Bool :=
  p == 0 ||
    match l[p]? with
    | some b => b < 128 || 192 ≤ b
    | none => p == l.length

/-- The byte index of the first `;`, mirroring `input.find(';')`. -/
def firstSemiIdx : List Nat → Option Nat
  | [] => none
  | b :: rest =>
    if b == 59 then some 0 else (firstSemiIdx rest).map (· + 1)

/-- The slice edge taken by `normalize_mtext` (`&input[text_start..]` with
`text_start` one past the first `;`) passes the boundary check.  (The other
edge of a `[p..]` slice is the end of the string, always a boundary.) -/
def normalizeSlicesOk (l : List Nat) : Bool :=
  match firstSemiIdx l with
  | some p => isCharBoundary l (p + 1)
  | none => true

/-- The boundary obligation of the `part[1..]` slice for one field part of
the format block: when the trimmed part enters a `b`/`i`/`c`/`p` branch
(classifying byte followed by at least one more byte), the byte at index 1
must not be a continuation byte. -/
def fieldSliceOk (rawPart : List Nat) : Bool :=
  match trimAscii rawPart with
  | p0 :: b1 :: _ =>
    if p0 = 98 ∨ p0 = 105 ∨ p0 = 99 ∨ p0 = 112 then b1 < 128 || 192 ≤ b1
    else true
  | _ => true

/-- All slice edges taken by `extract_mtext_format` pass the boundary
check: the start edge of `&input[start..i]` (the byte after the `\f`
marker), its end edge (the terminating `;` or the end of the string), and
the `part[1..]` edge of every classified field part. -/
def extractSlicesOk (l : List Nat) : Bool :=
  match findFontTail l with
  | none => true
  | some t =>
    (match t with
      | [] => true
      | c :: _ => c < 128 || 192 ≤ c) &&
    (match t.dropWhile (fun b => b != 59) with
      | [] => true
      | b :: _ => b < 128 || 192 ≤ b) &&
    ((splitOnPipe (t.takeWhile (fun b => b != 59))).tail.all fieldSliceOk)

end Dxf2Elmt

namespace Dxf2Elmt

/-! ## Theorems: claim C1 helper lemmas -/

theorem countEntity_total (s : ConversionStats) (e : EntityType) :
    (countEntity s e).total = s.total + 1 := by
  cases e <;> simp [countEntity, ConversionStats.total] <;> ring

theorem countEntities_total_aux (es : List EntityType) (s : ConversionStats) :
    (es.foldl countEntity s).total = s.total + es.length := by
  induction es generalizing s with
  | nil => simp
  | cons e rest ih =>
    simp only [List.foldl_cons, List.length_cons, ih, countEntity_total]
    omega

mutual

theorem countObject_total (c : ElmtCounts) (o : Objects) :
    (countObject c o).total = c.total + o.nodeCount := by
  cases o with
  | Group children =>
    rw [countObject, Objects.nodeCount, countObjectsRecursive_total]
    simp [ElmtCounts.total]
    ring
  | Arc => simp [countObject, Objects.nodeCount, ElmtCounts.total]; ring
  | Ellipse => simp [countObject, Objects.nodeCount, ElmtCounts.total]; ring
  | Polygon => simp [countObject, Objects.nodeCount, ElmtCounts.total]; ring
  | DynamicText => simp [countObject, Objects.nodeCount, ElmtCounts.total]; ring
  | Text => simp [countObject, Objects.nodeCount, ElmtCounts.total]; ring
  | Line => simp [countObject, Objects.nodeCount, ElmtCounts.total]; ring

theorem countObjectsRecursive_total (c : ElmtCounts) (l : List Objects) :
    (countObjectsRecursive c l).total = c.total + Objects.listNodeCount l := by
  cases l with
  | nil => rw [countObjectsRecursive, Objects.listNodeCount]; omega
  | cons o rest =>
    rw [countObjectsRecursive, Objects.listNodeCount,
      countObjectsRecursive_total, countObject_total]
    ring

end

/-! ## Theorems: normalizer scanner lemmas (for C3 and C5) -/

theorem scanCode_len : ∀ l : List Nat, (scanCode l).2.1.length ≤ l.length := by
  intro l
  induction l with
  | nil => simp [scanCode]
  | cons b rest ih =>
    rw [scanCode]
    split
    · simp
    · split
      · simpa using Nat.le_succ_of_le ih
      · simp

theorem isCodeByte_lt (b : Nat) (h : isCodeByte b = true) : b < 128 := by
  simp only [isCodeByte, Bool.or_eq_true, Bool.and_eq_true, decide_eq_true_eq,
    beq_iff_eq] at h
  omega

theorem isCodeByte_ne_semi (b : Nat) (h : isCodeByte b = true) : b ≠ 59 := by
  simp only [isCodeByte, Bool.or_eq_true, Bool.and_eq_true, decide_eq_true_eq,
    beq_iff_eq] at h
  omega

theorem restAfterSemi_of_not_mem :
    ∀ l : List Nat, 59 ∉ l → restAfterSemi l = none := by
  intro l h
  induction l with
  | nil => rfl
  | cons b rest ih =>
    rw [restAfterSemi, if_neg]
    · exact ih fun hm => h (List.mem_cons_of_mem _ hm)
    · simp only [beq_iff_eq]
      exact fun hb => h (hb ▸ List.mem_cons_self _ _)

theorem scanCode_code_app (code : List Nat) (d : Nat) (rest : List Nat)
    (hcode : code.all isCodeByte = true) (hd : isCodeByte d = false) (hd59 : d ≠ 59) :
    scanCode (code ++ d :: rest) = (code, d :: rest, false) := by
  induction code with
  | nil =>
    rw [List.nil_append, scanCode, if_neg, if_neg]
    · simp [hd]
    · simp [beq_iff_eq, hd59]
  | cons c cs ih =>
    simp only [List.all_cons, Bool.and_eq_true] at hcode
    rw [List.cons_append, scanCode, if_neg, if_pos hcode.1]
    · simp [ih hcode.2]
    · simp only [beq_iff_eq]
      exact isCodeByte_ne_semi c hcode.1

theorem scanCode_code_end (code : List Nat) (hcode : code.all isCodeByte = true) :
    scanCode code = (code, [], false) := by
  induction code with
  | nil => rfl
  | cons c cs ih =>
    simp only [List.all_cons, Bool.and_eq_true] at hcode
    rw [scanCode, if_neg, if_pos hcode.1]
    · simp [ih hcode.2]
    · simp only [beq_iff_eq]
      exact isCodeByte_ne_semi c hcode.1

theorem pushBytes_ascii (l : List Nat) (h : ∀ b ∈ l, b < 128) : pushBytes l = l := by
  induction l with
  | nil => rfl
  | cons b rest ih =>
    have hb : b < 128 := h b (List.mem_cons_self _ _)
    simp only [pushBytes, List.map_cons, List.flatten_cons, pushByte, if_pos hb]
    simpa [pushBytes] using ih fun x hx => h x (List.mem_cons_of_mem _ hx)

theorem normLoopF_congr :
    ∀ f₁ f₂ (l : List Nat), l.length ≤ f₁ → l.length ≤ f₂ →
      normLoopF f₁ l = normLoopF f₂ l := by
  intro f₁
  induction f₁ with
  | zero =>
    intro f₂ l h1 _
    have : l = [] := List.length_eq_zero.mp (Nat.le_zero.mp h1)
    subst this
    cases f₂ <;> rfl
  | succ f ih =>
    intro f₂ l h1 h2
    cases l with
    | nil => cases f₂ <;> rfl
    | cons b rest =>
      cases f₂ with
      | zero => simp at h2
      | succ g =>
        simp only [List.length_cons, Nat.succ_le_succ_iff] at h1 h2
        simp only [normLoopF]
        split
        · exact ih g rest h1 h2
        · split
          · rw [ih g rest h1 h2]
          · cases rest with
            | nil => rfl
            | cons b2 rest2 =>
              dsimp only
              simp only [List.length_cons] at h1 h2
              have h1' : rest2.length ≤ f := Nat.le_of_succ_le h1
              have h2' : rest2.length ≤ g := Nat.le_of_succ_le h2
              have hs := scanCode_len rest2
              split
              · rw [ih g rest2 h1' h2']
              · split
                · rw [ih g rest2 h1' h2']
                · split
                  · rw [ih g rest2 h1' h2']
                  · split
                    · split
                      · exact ih g _ (le_trans hs h1') (le_trans hs h2')
                      · split
                        · rfl
                        · rename_i d r2 heq
                          rw [ih g (d :: r2)
                            (le_trans (heq ▸ hs) h1') (le_trans (heq ▸ hs) h2')]
                    · rw [ih g (b2 :: rest2) (by simpa using h1) (by simpa using h2)]

theorem normLoopF_succ_alpha (f X : Nat) (tail : List Nat)
    (hX : isLatin1Alpha X = true) (hXP : X ≠ 80) (hX92 : X ≠ 92) (hX126 : X ≠ 126) :
    normLoopF (f + 1) (92 :: X :: tail) =
      if (scanCode tail).2.2 then normLoopF f (scanCode tail).2.1
      else
        match (scanCode tail).2.1 with
        | [] => []
        | d :: r2 =>
          pushBytes (92 :: X :: (scanCode tail).1) ++ normLoopF f (d :: r2) := by
  simp only [normLoopF]
  rw [if_neg (by decide), if_neg (by decide),
    if_neg (by simp [beq_iff_eq, hX92]), if_neg (by simp [beq_iff_eq, hXP]),
    if_neg (by simp [beq_iff_eq, hX126]), if_pos hX]

theorem normLoop_cons_alpha (X : Nat) (tail : List Nat)
    (hX : isLatin1Alpha X = true) (hXP : X ≠ 80) :
    normLoop (92 :: X :: tail) =
      if (scanCode tail).2.2 then normLoop (scanCode tail).2.1
      else
        match (scanCode tail).2.1 with
        | [] => []
        | d :: r2 =>
          pushBytes (92 :: X :: (scanCode tail).1) ++ normLoop (d :: r2) := by
  have hX92 : X ≠ 92 := by
    intro h; rw [h] at hX; exact absurd hX (by decide)
  have hX126 : X ≠ 126 := by
    intro h; rw [h] at hX; exact absurd hX (by decide)
  have hs := scanCode_len tail
  have h0 : normLoop (92 :: X :: tail) = normLoopF (tail.length + 1 + 1) (92 :: X :: tail) := by
    rw [normLoop, List.length_cons, List.length_cons]
  rw [h0, normLoopF_succ_alpha _ _ _ hX hXP hX92 hX126]
  rcases hsc : scanCode tail with ⟨c, r, fnd⟩
  rw [hsc] at hs
  simp only at hs ⊢
  cases fnd with
  | true =>
    rw [if_pos rfl, if_pos rfl]
    simp only [normLoop]
    exact normLoopF_congr _ _ _ (le_trans hs (Nat.le_succ _)) le_rfl
  | false =>
    rw [if_neg (by simp), if_neg (by simp)]
    cases r with
    | nil => rfl
    | cons d r2 =>
      simp only [List.length_cons] at hs
      simp only [normLoop]
      rw [normLoopF_congr (tail.length + 1) (d :: r2).length (d :: r2)
        (by simpa using Nat.le_succ_of_le hs) le_rfl]

theorem normLoopF_id :
    ∀ f (l : List Nat), l.length ≤ f → l.all plainAsciiByte = true →
      normLoopF f l = l := by
  intro f
  induction f with
  | zero =>
    intro l h1 _
    have : l = [] := List.length_eq_zero.mp (Nat.le_zero.mp h1)
    simp [this, normLoopF]
  | succ f ih =>
    intro l h1 h2
    cases l with
    | nil => rfl
    | cons b rest =>
      simp only [List.all_cons, Bool.and_eq_true] at h2
      have hb := h2.1
      simp only [plainAsciiByte, noMarkerByte, Bool.and_eq_true, Bool.not_eq_true',
        Bool.or_eq_false_iff, beq_eq_false_iff_ne, decide_eq_true_eq] at hb
      obtain ⟨⟨⟨⟨h92, h123⟩, h125⟩, _⟩, hlt⟩ := hb
      simp only [List.length_cons, Nat.succ_le_succ_iff] at h1
      simp only [normLoopF]
      rw [if_neg (by simp [beq_iff_eq, h123, h125])]
      rw [if_pos (by simp [bne_iff_ne]; exact h92)]
      rw [pushByte, if_pos hlt, ih rest h1 h2.2]
      rfl

theorem normalize_mtext_id (l : List Nat) (h : l.all plainAsciiByte = true) :
    normalize_mtext l = l := by
  have h59 : 59 ∉ l := by
    intro hm
    have := List.all_eq_true.mp h 59 hm
    simp [plainAsciiByte, noMarkerByte] at this
  rw [normalize_mtext, restAfterSemi_of_not_mem l h59, Option.getD_none, normLoop,
    normLoopF_id _ _ le_rfl h]

/-- C3, counterexample: the claim asserts that the unterminated candidate
code of `"\Xabc"` (bytes `92 88 97 98 99`) is copied verbatim to the output;
in fact `normalize_mtext` returns the empty string on this input — when the
inner scan runs off the end of the input without meeting either a `;` or a
disqualifying byte, the restore loop is never executed and the consumed span
is silently dropped. -/
theorem claim_C3_counterexample :
    normalize_mtext [92, 88, 97, 98, 99] = [] ∧
    92 ∉ normalize_mtext [92, 88, 97, 98, 99] := by decide

/-- C3, amended: a candidate formatting code (`\` + alphabetic byte `X` +
code bytes) that is stopped by a disqualifying byte `d` before any `;` is
copied verbatim to the output, and scanning resumes at `d`; but a candidate
code that runs to the end of the input without terminator is dropped
entirely, nothing being restored. -/
theorem claim_C3_amended (X d : Nat) (code rest : List Nat)
    (hX : isLatin1Alpha X = true) (hXP : X ≠ 80) (hXascii : X < 128)
    (hcode : code.all isCodeByte = true)
    (hd : isCodeByte d = false) (hd59 : d ≠ 59) (hrest : 59 ∉ rest) :
    normalize_mtext (92 :: X :: (code ++ d :: rest)) =
      (92 :: X :: code) ++ normLoop (d :: rest) ∧
    normalize_mtext (92 :: X :: code) = [] := by
  have hX59 : X ≠ 59 := by
    intro h; rw [h] at hX; exact absurd hX (by decide)
  have hc59 : 59 ∉ code := by
    intro hm
    exact isCodeByte_ne_semi 59 (List.all_eq_true.mp hcode 59 hm) rfl
  have hcLt : ∀ b ∈ code, b < 128 := by
    intro b hb
    exact isCodeByte_lt b (List.all_eq_true.mp hcode b hb)
  have hpush : pushBytes (92 :: X :: code) = 92 :: X :: code := by
    apply pushBytes_ascii
    intro b hb
    simp only [List.mem_cons] at hb
    rcases hb with rfl | rfl | hb
    · omega
    · exact hXascii
    · exact hcLt b hb
  constructor
  · have h1 : 59 ∉ (92 :: X :: (code ++ d :: rest)) := by
      intro hm
      simp only [List.mem_cons, List.mem_append] at hm
      rcases hm with h | h | h | h | h
      · omega
      · exact hX59 h.symm
      · exact hc59 h
      · exact hd59 h.symm
      · exact hrest h
    rw [normalize_mtext, restAfterSemi_of_not_mem _ h1, Option.getD_none]
    rw [normLoop_cons_alpha X _ hX hXP,
      scanCode_code_app code d rest hcode hd hd59]
    simpa using congrArg (· ++ normLoop (d :: rest)) hpush
  · have h2 : 59 ∉ (92 :: X :: code) := by
      intro hm
      simp only [List.mem_cons] at hm
      rcases hm with h | h | h
      · omega
      · exact hX59 h.symm
      · exact hc59 h
    rw [normalize_mtext, restAfterSemi_of_not_mem _ h2, Option.getD_none]
    rw [normLoop_cons_alpha X _ hX hXP, scanCode_code_end code hcode]
    simp

/-- C3, witness for the amended claim, at `"\Xab,c"` (disqualifying byte `,`)
and `"\Xabc"` (code running to end of input). -/
theorem claim_C3_amended_witness :
    normalize_mtext (92 :: 88 :: ([97, 98] ++ 44 :: [99])) =
      (92 :: 88 :: [97, 98]) ++ normLoop (44 :: [99]) ∧
    normalize_mtext (92 :: 88 :: [97, 98]) = [] :=
  claim_C3_amended 88 44 [97, 98] [99] (by decide) (by decide) (by decide)
    (by decide) (by decide) (by decide) (by decide)

/-- C5, counterexample: the input `"é"` (UTF-8 bytes `195 169`) normalizes
to a string with no escape markers left, yet a second normalization pass
changes it again: the scanner copies each byte through Rust's `u8 as char`,
which re-encodes every byte `≥ 0x80` as two UTF-8 bytes, so non-ASCII output
is not a fixed point of the normalizer. -/
theorem claim_C5_counterexample :
    (normalize_mtext [195, 169]).all noMarkerByte = true ∧
    normalize_mtext (normalize_mtext [195, 169]) ≠ normalize_mtext [195, 169] := by
  decide

/-- C5, amended: the normalizer is idempotent on every input whose
normalization contains no further escape markers and only ASCII bytes
(such a string is untouched by a second pass). -/
theorem claim_C5_amended (s : List Nat)
    (h : (normalize_mtext s).all plainAsciiByte = true) :
    normalize_mtext (normalize_mtext s) = normalize_mtext s :=
  normalize_mtext_id _ h

/-- C5, witness for the amended claim at the input `"ab"`. -/
theorem claim_C5_amended_witness :
    (normalize_mtext [97, 98]).all plainAsciiByte = true ∧
    normalize_mtext (normalize_mtext [97, 98]) = normalize_mtext [97, 98] :=
  ⟨by decide, claim_C5_amended [97, 98] (by decide)⟩

/-- C1: Count conservation.  The source-side per-kind tally sums exactly to
the number of source entities visited, and independently the emitted-side
tally produced by the recursive walker sums exactly to the total number of
objects in the Object Tree, with every `Group` node counted once and its
children flattened into the same totals. -/
theorem claim_C1_count_conservation :
    (∀ es : List EntityType, (countEntities es).total = es.length) ∧
    (∀ objs : List Objects,
      (countObjectsRecursive ElmtCounts.zero objs).total =
        Objects.listNodeCount objs) := by
  constructor
  · intro es
    rw [countEntities, countEntities_total_aux]
    simp [ConversionStats.zero, ConversionStats.total]
  · intro objs
    rw [countObjectsRecursive_total]
    simp [ElmtCounts.zero, ElmtCounts.total]

/-! ## Theorems: panic freedom of the text transformations (C8) -/

theorem chain'_rel_of_get (R : Nat → Nat → Prop) (l : List Nat)
    (h : List.Chain' R l) (i a b : Nat)
    (ha : l[i]? = some a) (hb : l[i + 1]? = some b) : R a b := by
  obtain ⟨hia, hea⟩ := List.getElem?_eq_some.mp ha
  obtain ⟨hib, heb⟩ := List.getElem?_eq_some.mp hb
  have hr := (List.chain'_iff_get.mp h) i (by omega)
  simpa [List.get_eq_getElem, hea, heb] using hr

theorem boundary_after_ascii (l : List Nat) (h : List.Chain' utf8Step l)
    (p b : Nat) (hb : l[p]? = some b) (hlt : b < 128) :
    isCharBoundary l (p + 1) = true := by
  rw [isCharBoundary]
  cases hq : l[p + 1]? with
  | none =>
    have hp := (List.getElem?_eq_some.mp hb).1
    have hlen : l.length ≤ p + 1 := List.getElem?_eq_none_iff.mp hq
    have : p + 1 = l.length := by omega
    simp [this]
  | some c =>
    have hrel := chain'_rel_of_get utf8Step l h p b c hb hq
    rcases hrel hlt with h1 | h1 <;> simp [h1]

theorem firstSemiIdx_get :
    ∀ (l : List Nat) (p : Nat), firstSemiIdx l = some p → l[p]? = some 59 := by
  intro l
  induction l with
  | nil => intro p hp; simp [firstSemiIdx] at hp
  | cons b rest ih =>
    intro p hp
    rw [firstSemiIdx] at hp
    by_cases hb : (b == 59) = true
    · rw [if_pos hb] at hp
      obtain rfl : (0 : Nat) = p := Option.some.inj hp
      have : b = 59 := by simpa using hb
      simp [this]
    · rw [if_neg hb] at hp
      obtain ⟨q, hq, hq1⟩ := Option.map_eq_some'.mp hp
      subst hq1
      simpa using ih q hq

theorem dropWhile_head_false (p : Nat → Bool) : ∀ l : List Nat,
    (match l.dropWhile p with
      | [] => True
      | b :: _ => p b = false) := by
  intro l
  induction l with
  | nil => simp [List.dropWhile]
  | cons b rest ih =>
    cases hb : p b with
    | true =>
      rw [List.dropWhile_cons, if_pos hb]
      exact ih
    | false =>
      rw [List.dropWhile_cons, if_neg (by simp [hb])]
      exact hb

theorem findFontTail_spec : ∀ l : List Nat, List.Chain' utf8Step l →
    ∀ t, findFontTail l = some t →
      List.Chain' utf8Step t ∧
      (match t with
        | [] => True
        | c :: _ => c < 128 ∨ 192 ≤ c) := by
  intro l
  induction l with
  | nil => intro _ t ht; simp [findFontTail] at ht
  | cons a tail ih =>
    intro h t ht
    cases tail with
    | nil => simp [findFontTail] at ht
    | cons b tail2 =>
      cases tail2 with
      | nil => simp [findFontTail] at ht
      | cons c rest =>
        rw [findFontTail] at ht
        by_cases hab : (a == 92 && b == 102) = true
        · rw [if_pos hab] at ht
          obtain rfl : c :: rest = t := Option.some.inj ht
          obtain ⟨hr1, h2⟩ := List.chain'_cons.mp h
          obtain ⟨hr2, h3⟩ := List.chain'_cons.mp h2
          have hb102 : b = 102 := by
            simp only [Bool.and_eq_true, beq_iff_eq] at hab
            exact hab.2
          refine ⟨h3, ?_⟩
          exact (hb102 ▸ hr2) (by omega)
        · rw [if_neg hab] at ht
          exact ih (List.Chain'.tail h) t ht

theorem chain'_trimAscii (l : List Nat) (h : List.Chain' utf8Step l) :
    List.Chain' utf8Step (trimAscii l) := by
  rw [trimAscii]
  have h1 : List.Chain' utf8Step (l.dropWhile isAsciiWs) :=
    List.Chain'.suffix h (List.dropWhile_suffix _)
  have h2 : List.Chain' (flip utf8Step) (l.dropWhile isAsciiWs).reverse :=
    List.chain'_reverse.mpr h1
  have h3 : List.Chain' (flip utf8Step)
      ((l.dropWhile isAsciiWs).reverse.dropWhile isAsciiWs) :=
    List.Chain'.suffix h2 (List.dropWhile_suffix _)
  exact List.chain'_reverse.mpr h3

theorem splitOnPipe_eq_cons : ∀ l : List Nat,
    ∃ ps, splitOnPipe l = (l.takeWhile (fun b => b != 124)) :: ps := by
  intro l
  induction l with
  | nil => exact ⟨[], rfl⟩
  | cons b rest ih =>
    cases hb : (b == 124) with
    | true =>
      have hb' : b = 124 := by simpa using hb
      subst hb'
      refine ⟨splitOnPipe rest, ?_⟩
      simp [splitOnPipe, List.takeWhile_cons]
    | false =>
      have hb' : b ≠ 124 := by simpa using hb
      obtain ⟨ps, hps⟩ := ih
      refine ⟨ps, ?_⟩
      simp [splitOnPipe, hb, hps, List.takeWhile_cons, hb']

theorem splitOnPipe_chain : ∀ l : List Nat, List.Chain' utf8Step l →
    ∀ p ∈ splitOnPipe l, List.Chain' utf8Step p := by
  intro l
  induction l with
  | nil =>
    intro _ p hp
    simp [splitOnPipe] at hp
    simp [hp]
  | cons b rest ih =>
    intro h p hp
    cases hb : (b == 124) with
    | true =>
      rw [splitOnPipe, if_pos hb] at hp
      rcases List.mem_cons.mp hp with rfl | hmem
      · simp
      · exact ih (List.Chain'.tail h) p hmem
    | false =>
      obtain ⟨ps, hps⟩ := splitOnPipe_eq_cons rest
      rw [splitOnPipe, if_neg (by simp [hb]), hps] at hp
      rcases List.mem_cons.mp hp with rfl | hmem
      · have hpre : (b :: rest.takeWhile (fun x => x != 124)) <+: (b :: rest) :=
          List.cons_prefix_cons.mpr ⟨rfl, List.takeWhile_prefix _⟩
        exact List.Chain'.prefix h hpre
      · have hmem2 : p ∈ splitOnPipe rest := by
          rw [hps]
          exact List.mem_cons_of_mem _ hmem
        exact ih (List.Chain'.tail h) p hmem2

theorem fieldSliceOk_of_chain (rawPart : List Nat)
    (h : List.Chain' utf8Step rawPart) : fieldSliceOk rawPart = true := by
  rw [fieldSliceOk]
  have ht := chain'_trimAscii rawPart h
  rcases htr : trimAscii rawPart with _ | ⟨p0, _ | ⟨b1, rest2⟩⟩
  · rfl
  · rfl
  · rw [htr] at ht
    obtain ⟨hr, _⟩ := List.chain'_cons.mp ht
    dsimp only
    by_cases hp0 : p0 = 98 ∨ p0 = 105 ∨ p0 = 99 ∨ p0 = 112
    · rw [if_pos hp0]
      have hlt : p0 < 128 := by rcases hp0 with rfl | rfl | rfl | rfl <;> omega
      rcases hr hlt with h1 | h1 <;> simp [h1]
    · rw [if_neg hp0]

/-- C8: Totality / panic freedom of the pure text transformations.  For
every byte string satisfying the adjacency property of valid UTF-8
(`List.Chain' utf8Step`, true of every Rust `str`), each string-slice edge
taken by `normalize_mtext` and by `extract_mtext_format` passes Rust's
`is_char_boundary` check — every other byte access in both functions is
explicitly bounds-guarded — so neither function can panic; and a missing
`\f` marker falls back to the all-default `MTextFormatInfo` instead of
failing. -/
theorem claim_C8_totality (l : List Nat) (h : List.Chain' utf8Step l) :
    normalizeSlicesOk l = true ∧ extractSlicesOk l = true ∧
    (findFontTail l = none → extract_mtext_format l = {}) := by
  refine ⟨?_, ?_, ?_⟩
  · rw [normalizeSlicesOk]
    cases hf : firstSemiIdx l with
    | none => rfl
    | some p =>
      exact boundary_after_ascii l h p 59 (firstSemiIdx_get l p hf) (by omega)
  · rw [extractSlicesOk]
    cases hft : findFontTail l with
    | none => rfl
    | some t =>
      obtain ⟨hchain, hhead⟩ := findFontTail_spec l h t hft
      rw [Bool.and_eq_true, Bool.and_eq_true]
      refine ⟨⟨?_, ?_⟩, ?_⟩
      · cases t with
        | nil => rfl
        | cons c rest => rcases hhead with h1 | h1 <;> simp [h1]
      · have hd := dropWhile_head_false (fun b => b != 59) t
        cases hdw : t.dropWhile (fun b => b != 59) with
        | nil => rfl
        | cons b rest2 =>
          rw [hdw] at hd
          have : b = 59 := by simpa using hd
          simp [this]
      · rw [List.all_eq_true]
        intro part hpart
        have hblock : List.Chain' utf8Step (t.takeWhile (fun b => b != 59)) :=
          List.Chain'.prefix hchain ( List.takeWhile_prefix _)
        exact fieldSliceOk_of_chain part
          (splitOnPipe_chain _ hblock part (List.mem_of_mem_tail hpart))
  · intro hnone
    simp [extract_mtext_format, hnone]

/-- C8, witness at the concrete input `"Ü;\fA|b1;B"` (bytes
`195 156 59 92 102 65 124 98 49 59 66`). -/
theorem claim_C8_totality_witness :
    List.Chain' utf8Step [195, 156, 59, 92, 102, 65, 124, 98, 49, 59, 66] ∧
    (normalizeSlicesOk [195, 156, 59, 92, 102, 65, 124, 98, 49, 59, 66] = true ∧
      extractSlicesOk [195, 156, 59, 92, 102, 65, 124, 98, 49, 59, 66] = true ∧
      (findFontTail [195, 156, 59, 92, 102, 65, 124, 98, 49, 59, 66] = none →
        extract_mtext_format [195, 156, 59, 92, 102, 65, 124, 98, 49, 59, 66] =
          {})) :=
  ⟨by simp [List.chain'_cons, utf8Step],
    claim_C8_totality _ (by simp [List.chain'_cons, utf8Step])⟩

/-! ## Theorems: rotation normalization (C2) -/

theorem rustRound_neg (q : ℚ) : rustRound (-q) = -rustRound q := by
  rcases lt_trichotomy q 0 with h | h | h
  · rw [rustRound, rustRound, if_pos (by linarith), if_neg (by linarith)]
    rw [neg_neg]
  · subst h
    norm_num [rustRound]
  · rw [rustRound, rustRound, if_neg (by linarith), if_pos (by linarith)]
    rw [neg_neg]

theorem dvd_rustRound_abs (q : ℚ) :
    ((360 : ℤ) ∣ rustRound |q|) ↔ ((360 : ℤ) ∣ rustRound q) := by
  rcases abs_choice q with h | h
  · rw [h]
  · rw [h, rustRound_neg, dvd_neg]

/-- C2: Rotation normalization.  For every source text entity (any of the
three variants, any builder color, any drawn uuid), the stored rotation of
the built text object is `0` when the source rotation rounded to the
nearest integer degree (Rust `f64::round`, half away from zero) is a
multiple of 360°, and `rotation_source - 180` otherwise. -/
theorem claim_C2_rotation_normalization (b : DTextBuilder) (u : Nat) :
    (b.build u).rotation =
      if (360 : ℤ) ∣ rustRound b.sourceRotation then 0
      else b.sourceRotation - 180 := by
  have key : ∀ r : ℚ,
      (if rustRound |r| % 360 ≠ 0 then r - 180 else 0) =
        if (360 : ℤ) ∣ rustRound r then 0 else r - 180 := by
    intro r
    by_cases h : (360 : ℤ) ∣ rustRound r
    · rw [if_pos h, if_neg]
      simp only [ne_eq, not_not]
      exact Int.emod_eq_zero_of_dvd ((dvd_rustRound_abs r).mpr h)
    · rw [if_neg h, if_pos]
      intro h0
      exact h ((dvd_rustRound_abs r).mp (Int.dvd_of_emod_eq_zero h0))
  obtain ⟨te, c⟩ := b
  cases te <;>
    simpa [DTextBuilder.build, DTextBuilder.sourceRotation] using key _

/-! ## Theorems: which variants are normalized (C4) -/

/-- C4, counterexample: the claim asserts the attribute value is run
through the Escape Normalizer, but `DTextBuilder::build` stores
`attrib.value.clone()` verbatim: for the attribute value `"{a}"` the built
text keeps the braces while `normalize_mtext` would strip them. -/
theorem claim_C4_counterexample :
    ((DTextBuilder.from_attrib cexAttrib).build 0).text = [123, 97, 125] ∧
    normalize_mtext cexAttrib.value = [97] ∧
    ((DTextBuilder.from_attrib cexAttrib).build 0).text ≠
      normalize_mtext cexAttrib.value := by decide

/-- C4, amended: simple text and concatenated multi-line rich text are
normalized by the builder (overflow chunks joined before the primary text
field), but block-attribute text is stored verbatim, not normalized. -/
theorem claim_C4_amended :
    (∀ (t : TextEnt) (c : Option HexColor) (u : Nat),
      ((DTextBuilder.mk (.Text t) c).build u).text = normalize_mtext t.value) ∧
    (∀ (m : MTextEnt) (c : Option HexColor) (u : Nat),
      ((DTextBuilder.mk (.MText m) c).build u).text =
        normalize_mtext (m.extended_text.flatten ++ m.text)) ∧
    (∀ (a : AttribEnt) (c : Option HexColor) (u : Nat),
      ((DTextBuilder.mk (.Attrib a) c).build u).text = a.value) :=
  ⟨fun _ _ _ => rfl, fun _ _ _ => rfl, fun _ _ _ => rfl⟩

/-! ## Theorems: format extraction (C6) -/

/-- C6: Format extraction.  On the spec's example
`"{\fGaramond|b0|i1|c2|p18;ignored}"` the extractor yields
`family = "Garamond"`, `bold = false`, `italic = true`,
`color_index = 2`, `point_size = 18.0`; and on `"\fA;\fB1;"` only the
first `\f` block is consulted — the `B1` block is ignored and all
non-family fields keep their defaults. -/
theorem claim_C6_format_extraction :
    extract_mtext_format
        [123, 92, 102, 71, 97, 114, 97, 109, 111, 110, 100, 124, 98, 48,
          124, 105, 49, 124, 99, 50, 124, 112, 49, 56, 59, 105, 103, 110,
          111, 114, 101, 100, 125] =
      { family := some [71, 97, 114, 97, 109, 111, 110, 100], bold := false,
        italic := true, point_size := some 18, color_index := some 2 } ∧
    extract_mtext_format [92, 102, 65, 59, 92, 102, 66, 49, 59] =
      { family := some [65], bold := false, italic := false,
        point_size := none, color_index := none } := by
  constructor
  · norm_num [extract_mtext_format, findFontTail, splitOnPipe, trimAscii,
      trimBraces, isAsciiWs, isBraceByte, asciiDigit, digitsVal, parseDigits,
      parse_i32, parse_f64, parse_f64_body, parseExpPart,
      parseExpPart.parseExpDigits, applyFormatField, applyExp, pow10]
    simp
  · decide

/-! ## Theorems: the scaling frame property (C7) -/

/-- C7: Frame property of text scaling.  `scale(fx, fy)` multiplies `x` by
`fx`, `y` by `fy` and `font.point_size` by `fx` (not `fy`), and leaves
every other field — `original_text_height`, `z`, `rotation`, `text`,
`uuid`, `color`, both alignments, `reference_rectangle_width`, and the
remaining font and bookkeeping fields — unchanged. -/
theorem claim_C7_scale_frame (t : DynamicText) (fx fy : ℚ) :
    (t.scale fx fy).x = t.x * fx ∧
    (t.scale fx fy).y = t.y * fy ∧
    (t.scale fx fy).font.point_size = t.font.point_size * fx ∧
    (t.scale fx fy).original_text_height = t.original_text_height ∧
    (t.scale fx fy).z = t.z ∧
    (t.scale fx fy).rotation = t.rotation ∧
    (t.scale fx fy).text = t.text ∧
    (t.scale fx fy).uuid = t.uuid ∧
    (t.scale fx fy).color = t.color ∧
    (t.scale fx fy).h_alignment = t.h_alignment ∧
    (t.scale fx fy).v_alignment = t.v_alignment ∧
    (t.scale fx fy).reference_rectangle_width = t.reference_rectangle_width ∧
    (t.scale fx fy).font.family = t.font.family ∧
    (t.scale fx fy).font.weight = t.font.weight ∧
    (t.scale fx fy).font.style = t.font.style ∧
    (t.scale fx fy).text_from = t.text_from ∧
    (t.scale fx fy).frame = t.frame ∧
    (t.scale fx fy).text_width = t.text_width ∧
    (t.scale fx fy).keep_visual_rotation = t.keep_visual_rotation ∧
    (t.scale fx fy).info_name = t.info_name :=
  ⟨rfl, rfl, rfl, rfl, rfl, rfl, rfl, rfl, rfl, rfl, rfl, rfl, rfl, rfl,
    rfl, rfl, rfl, rfl, rfl, rfl⟩

/-! ## Theorems: emitted x position and width estimate (C9) -/

/-- C9: Emitted x position and width estimate.  The estimated width is the
source reference width when it exceeds 2.0 and
`grapheme_count * point_size * 0.75` otherwise; `Left` alignment emits
`x + 0.5 - point_size/8 - 4.05`; `Center` emits exactly the Left-aligned
position minus half the estimated width, `Right` minus the full estimated
width — for any grapheme counter `gc`. -/
theorem claim_C9_xpos_alignment (gc : List Nat → Nat) (t : DynamicText) :
    estTextWidth gc t =
      (if t.reference_rectangle_width > 2 then t.reference_rectangle_width
        else (gc t.text : ℚ) * t.font.point_size * (3 / 4)) ∧
    xPosOf gc { t with h_alignment := .Left } =
      t.x + 1 / 2 - t.font.point_size / 8 - 81 / 20 ∧
    xPosOf gc { t with h_alignment := .Center } =
      xPosOf gc { t with h_alignment := .Left } - estTextWidth gc t / 2 ∧
    xPosOf gc { t with h_alignment := .Right } =
      xPosOf gc { t with h_alignment := .Left } - estTextWidth gc t :=
  ⟨rfl, rfl, rfl, rfl⟩

/-! ## Theorems: builder defaults and optional XML attributes (C10) -/

theorem toXml_attr_names (gc : List Nat → Nat) (t : DynamicText)
    (h1 : t.info_name = none) (h2 : t.keep_visual_rotation = false) :
    (DynamicText.toXml gc t).attributes.map Prod.fst =
      ["x", "y", "z", "rotation", "uuid", "font", "Halignment",
        "Valignment", "text_from", "frame", "text_width", "color"] := by
  simp [DynamicText.toXml, h1, h2]

/-- C10: Builder-default invariant.  Every `DynamicText` built from any of
the three source variants has `text_from = "UserText"`, `frame = false`,
`text_width = -1`, `keep_visual_rotation = false` and `info_name = None`;
consequently the emitted XML node of a freshly built object carries exactly
the twelve fixed attributes — never `info_name` or
`keep_visual_rotation`. -/
theorem claim_C10_builder_defaults (b : DTextBuilder) (u : Nat)
    (gc : List Nat → Nat) :
    (b.build u).text_from = userTextBytes ∧
    (b.build u).frame = false ∧
    (b.build u).text_width = -1 ∧
    (b.build u).keep_visual_rotation = false ∧
    (b.build u).info_name = none ∧
    (DynamicText.toXml gc (b.build u)).attributes.map Prod.fst =
      ["x", "y", "z", "rotation", "uuid", "font", "Halignment",
        "Valignment", "text_from", "frame", "text_width", "color"] ∧
    "info_name" ∉
      (DynamicText.toXml gc (b.build u)).attributes.map Prod.fst ∧
    "keep_visual_rotation" ∉
      (DynamicText.toXml gc (b.build u)).attributes.map Prod.fst := by
  obtain ⟨te, c⟩ := b
  have h4 : ((DTextBuilder.mk te c).build u).keep_visual_rotation = false := by
    cases te <;> rfl
  have h5 : ((DTextBuilder.mk te c).build u).info_name = none := by
    cases te <;> rfl
  have h6 := toXml_attr_names gc _ h5 h4
  refine ⟨?_, ?_, ?_, h4, h5, h6, ?_, ?_⟩
  · cases te <;> rfl
  · cases te <;> rfl
  · cases te <;> rfl
  · rw [h6]; decide
  · rw [h6]; decide

end Dxf2Elmt
